import Mathlib

/-!
Shallow embedding of the Timer Engine of the In-DO-Time repository
(the `lib/timer` module).  The Supabase `time_entries` table is modelled
as an in-memory list of records together with the next id the store will
generate; every engine operation is a function from a state (plus an
injected wall-clock instant, in milliseconds, where the source calls
`new Date()`) to a `TimerResult` and the successor state.

Timestamps are `Int` milliseconds since the epoch, exactly the value of
JavaScript `Date.getTime()`; `Math.floor((end - start) / 1000)` is
`Int.fdiv (end - start) 1000` (floor division).
-/

namespace InDoTime

/-- Row of the `time_entries` table (see the SQL schema and the
`TimeEntry` row type): `end_time`, `duration_seconds` and `notes` are
nullable.  The store-generated `created_at` / `updated_at` audit columns
are omitted; no engine rule reads them. -/
structure TimeEntry where
  id : Nat
  project_id : String
  start_time : Int
  end_time : Option Int
  duration_seconds : Option Int
  is_running : Bool
  is_manual : Bool
  notes : Option String
deriving DecidableEq, Repr

/-- Mirror of the source's `TimerResult` interface. -/
structure TimerResult where
  success : Bool
  timeEntry : Option TimeEntry
  error : Option String
deriving DecidableEq, Repr

/-- The persistent store: the rows of `time_entries` plus the id the
store will assign to the next inserted row (ids are store-generated). -/
structure EngineState where
  entries : List TimeEntry
  nextId : Nat
deriving DecidableEq, Repr

/-- JavaScript `notes || null` on an optional string argument: an absent
or empty-string notes value is stored as null. -/
def notesOrNull : Option String → Option String
  | none => none
  | some s => if s == "" then none else some s

/-- Predicate of the query `.eq('project_id', pid).eq('is_running', true)`. -/
def isRunningFor (pid : String) (e : TimeEntry) : Bool :=
  e.project_id == pid && e.is_running

/-- `getRunningTimerForProject`: the query ends in `.single()`, which
yields a row exactly when the filter matches one row; zero rows (PGRST116)
and multiple rows are both reported as errors, which the source maps to
`null`. -/
def getRunningTimerForProject (s : EngineState) (pid : String) : Option TimeEntry :=
  match s.entries.filter (isRunningFor pid) with
  | [e] => some e
  | _ => none

/-- Lookup `.eq('id', id).single()` used by `stopTimer`, `updateTimeEntry`
and `deleteTimeEntry`. -/
def findEntry (s : EngineState) (id : Nat) : Option TimeEntry :=
  match s.entries.filter (fun e => e.id == id) with
  | [e] => some e
  | _ => none

/-- One row of `.order('start_time', { ascending := false }).limit(1)`:
an entry with maximal `start_time`.  The database order is not specified
further for ties; this model keeps the earliest-inserted such entry. -/
def latestEntry : List TimeEntry → Option TimeEntry
  | [] => none
  | e :: es =>
    match latestEntry es with
    | none => some e
    | some b => if b.start_time > e.start_time then some b else some e

/-- `getLastEntryForProject`: most recent entry of the project, running
or stopped. -/
def getLastEntryForProject (s : EngineState) (pid : String) : Option TimeEntry :=
  latestEntry (s.entries.filter (fun e => e.project_id == pid))

/-- The `TimeEntryInsert` object `startTimer` sends, after the store
assigned the next id. -/
def newRunningEntry (s : EngineState) (pid : String) (notes : Option String)
    (now : Int) : TimeEntry :=
  { id := s.nextId, project_id := pid, start_time := now, end_time := none
    duration_seconds := none, is_running := true, is_manual := false
    notes := notesOrNull notes }

/-- `startTimer(projectId, notes?)`: refuse when a running timer exists
for the project, otherwise insert a fresh running entry with
`start_time = now`. -/
def startTimer (s : EngineState) (pid : String) (notes : Option String)
    (now : Int) : TimerResult × EngineState :=
  match getRunningTimerForProject s pid with
  | some _ =>
    (⟨false, none, some "A timer is already running for this project"⟩, s)
  | none =>
    (⟨true, some (newRunningEntry s pid notes now), none⟩,
     ⟨s.entries ++ [newRunningEntry s pid notes now], s.nextId + 1⟩)

/-- The row update `stopTimer` sends: `end_time = now`,
`duration_seconds = calculateElapsedSeconds(start_time)` (floor of the
elapsed milliseconds over 1000), `is_running = false`. -/
def stopUpdate (e : TimeEntry) (now : Int) : TimeEntry :=
  { e with end_time := some now
           duration_seconds := some (Int.fdiv (now - e.start_time) 1000)
           is_running := false }

/-- `stopTimer(timeEntryId)`: not-found and not-running guards, then the
closing update. -/
def stopTimer (s : EngineState) (id : Nat) (now : Int) : TimerResult × EngineState :=
  match findEntry s id with
  | none => (⟨false, none, some "Time entry not found"⟩, s)
  | some cur =>
    if cur.is_running then
      (⟨true, some (stopUpdate cur now), none⟩,
       ⟨s.entries.map (fun e => if e.id == id then stopUpdate cur now else e),
        s.nextId⟩)
    else
      (⟨false, none, some "Timer is not running"⟩, s)

/-- `stopTimerForProject(projectId)`: resolve the running timer, then
delegate to `stopTimer`. -/
def stopTimerForProject (s : EngineState) (pid : String) (now : Int) :
    TimerResult × EngineState :=
  match getRunningTimerForProject s pid with
  | none => (⟨false, none, some "No running timer found for this project"⟩, s)
  | some t => stopTimer s t.id now

/-- `pauseTimer(projectId)` is exactly `stopTimerForProject`. -/
def pauseTimer (s : EngineState) (pid : String) (now : Int) :
    TimerResult × EngineState :=
  stopTimerForProject s pid now

/-- `if (lastEntry?.notes) notes = lastEntry.notes` in `resumeTimer`:
only a present, non-empty (truthy) notes string is carried over. -/
def truthyNote : Option TimeEntry → Option String
  | none => none
  | some le =>
    match le.notes with
    | none => none
    | some str => if str == "" then none else some str

/-- `resumeTimer(projectId, copyNotes = true)`: conflict guard, optional
note carry-over from the most recent entry, then delegate to
`startTimer`. -/
def resumeTimer (s : EngineState) (pid : String) (copyNotes : Bool)
    (now : Int) : TimerResult × EngineState :=
  match getRunningTimerForProject s pid with
  | some _ =>
    (⟨false, none, some "Timer is already running for this project"⟩, s)
  | none =>
    startTimer s pid
      (if copyNotes then truthyNote (getLastEntryForProject s pid) else none) now

/-- The closed `TimeEntryInsert` object `createManualEntry` sends, after
the store assigned the next id. -/
def newManualEntry (s : EngineState) (pid : String) (startT endT : Int)
    (notes : Option String) : TimeEntry :=
  { id := s.nextId, project_id := pid, start_time := startT
    end_time := some endT, duration_seconds := some (Int.fdiv (endT - startT) 1000)
    is_running := false, is_manual := true, notes := notesOrNull notes }

/-- `createManualEntry(projectId, startTime, endTime, notes?)`: duration
is floored first and the entry is rejected when that floor is `<= 0`. -/
def createManualEntry (s : EngineState) (pid : String) (startT endT : Int)
    (notes : Option String) : TimerResult × EngineState :=
  if Int.fdiv (endT - startT) 1000 ≤ 0 then
    (⟨false, none, some "End time must be after start time"⟩, s)
  else
    (⟨true, some (newManualEntry s pid startT endT notes), none⟩,
     ⟨s.entries ++ [newManualEntry s pid startT endT notes], s.nextId + 1⟩)

/-- Application of one partial update object to a stored row: each field
present in the update replaces the stored one. -/
def applyFields (e : TimeEntry) (ustart uend udur : Option Int)
    (unotes : Option (Option String)) : TimeEntry :=
  { e with start_time := ustart.getD e.start_time
           end_time := match uend with | some t => some t | none => e.end_time
           duration_seconds := match udur with | some d => some d | none => e.duration_seconds
           notes := unotes.getD e.notes }

/-- The final `.update(updates).eq('id', id).select().single()` call of
`updateTimeEntry`: each field present in the partial update replaces the
stored one.  A missing row is a query error surfaced as a failure. -/
def applyTimeEntryUpdate (s : EngineState) (id : Nat)
    (ustart uend udur : Option Int) (unotes : Option (Option String)) :
    TimerResult × EngineState :=
  match findEntry s id with
  | none => (⟨false, none, some "Entry not found"⟩, s)
  | some e =>
    (⟨true, some (applyFields e ustart uend udur unotes), none⟩,
     ⟨s.entries.map
        (fun x => if x.id == id then applyFields e ustart uend udur unotes else x),
      s.nextId⟩)

/-- `updateTimeEntry(timeEntryId, updates)` for the update fields the
engine contract exposes (`start_time` / `end_time` / `notes`; the
function computes `duration_seconds` itself).  With both times supplied
the duration is recomputed from them directly; with exactly one, the
missing side is fetched from the existing row (not-found there is an
error); with neither, the duration is left untouched. -/
def updateTimeEntry (s : EngineState) (id : Nat) (ustart uend : Option Int)
    (unotes : Option (Option String)) : TimerResult × EngineState :=
  match ustart, uend with
  | some st, some en =>
    applyTimeEntryUpdate s id (some st) (some en)
      (some (Int.fdiv (en - st) 1000)) unotes
  | none, none =>
    applyTimeEntryUpdate s id none none none unotes
  | _, _ =>
    match findEntry s id with
    | none => (⟨false, none, some "Entry not found"⟩, s)
    | some existing =>
      applyTimeEntryUpdate s id ustart uend
        ((match uend with
          | some t => some t
          | none => existing.end_time).map
          (fun t => Int.fdiv (t - ustart.getD existing.start_time) 1000))
        unotes

/-- `deleteTimeEntry(timeEntryId)`: not-found and still-running guards,
then the row is removed. -/
def deleteTimeEntry (s : EngineState) (id : Nat) : TimerResult × EngineState :=
  match findEntry s id with
  | none => (⟨false, none, some "Entry not found"⟩, s)
  | some entry =>
    if entry.is_running then
      (⟨false, none, some "Cannot delete a running timer. Stop it first."⟩, s)
    else
      (⟨true, none, none⟩, ⟨s.entries.filter (fun x => !(x.id == id)), s.nextId⟩)

/-- `getPausedTimerForProject`: no running timer, the last entry exists,
has an `end_time`, and `hoursSinceStopped <= 24`
(`(now - end) / 3600000 <= 24`, i.e. `now - end <= 86400000` ms). -/
def getPausedTimerForProject (s : EngineState) (pid : String) (now : Int) :
    Option TimeEntry :=
  match getRunningTimerForProject s pid with
  | some _ => none
  | none =>
    match getLastEntryForProject s pid with
    | none => none
    | some lastE =>
      match lastE.end_time with
      | none => none
      | some et => if now - et ≤ 86400000 then some lastE else none

/-- The `TimerState` union type. -/
inductive TimerState where
  | running
  | paused
  | stopped
deriving DecidableEq, Repr

/-- `getTimerStateForProject`: running wins, then the paused heuristic,
else stopped. -/
def getTimerStateForProject (s : EngineState) (pid : String) (now : Int) :
    TimerState × Option TimeEntry :=
  match getRunningTimerForProject s pid with
  | some t => (TimerState.running, some t)
  | none =>
    match getPausedTimerForProject s pid now with
    | some t => (TimerState.paused, some t)
    | none => (TimerState.stopped, none)

/-- One engine operation together with its arguments; each constructor
carries the wall-clock instant(s) the source would read from
`new Date()`. -/
inductive EngineOp where
  | start (pid : String) (notes : Option String) (now : Int)
  | stop (id : Nat) (now : Int)
  | stopForProject (pid : String) (now : Int)
  | pause (pid : String) (now : Int)
  | resume (pid : String) (copyNotes : Bool) (now : Int)
  | manual (pid : String) (startT endT : Int) (notes : Option String)
  | update (id : Nat) (ustart uend : Option Int) (unotes : Option (Option String))
  | delete (id : Nat)
deriving DecidableEq, Repr

/-- Dispatch one operation. -/
def applyOp (s : EngineState) : EngineOp → TimerResult × EngineState
  | .start pid notes now => startTimer s pid notes now
  | .stop id now => stopTimer s id now
  | .stopForProject pid now => stopTimerForProject s pid now
  | .pause pid now => pauseTimer s pid now
  | .resume pid copyNotes now => resumeTimer s pid copyNotes now
  | .manual pid startT endT notes => createManualEntry s pid startT endT notes
  | .update id ustart uend unotes => updateTimeEntry s id ustart uend unotes
  | .delete id => deleteTimeEntry s id

/-- Successor state of one operation. -/
def stepOp (s : EngineState) (op : EngineOp) : EngineState :=
  (applyOp s op).2

/-- Run a sequence of operations left to right. -/
def runOps (s : EngineState) (ops : List EngineOp) : EngineState :=
  ops.foldl stepOp s

/-- At most one running interval per project (the C1 invariant). -/
def AtMostOneRunning (s : EngineState) : Prop :=
  ∀ pid, (s.entries.countP (isRunningFor pid)) ≤ 1

/-- One interval's running/end/duration consistency (the C2 invariant,
per entry). -/
def RunEndDurOK (e : TimeEntry) : Prop :=
  (e.is_running = true ↔ e.end_time = none) ∧
  (e.end_time = none ↔ e.duration_seconds = none)

/-- Every stored interval is running/end/duration consistent. -/
def RunEndDurInv (s : EngineState) : Prop :=
  ∀ e ∈ s.entries, RunEndDurOK e

/-- One interval's duration equation: whenever `end_time` is present,
`duration_seconds` is present and equals the floored elapsed seconds. -/
def DurEqOK (e : TimeEntry) : Prop :=
  ∀ t, e.end_time = some t →
    e.duration_seconds = some (Int.fdiv (t - e.start_time) 1000)

/-- Every stored interval satisfies the duration equation. -/
def DurEqInv (s : EngineState) : Prop :=
  ∀ e ∈ s.entries, DurEqOK e

/-- Checker for the `end_time > start_time` half of claim C3. -/
def endAfterStartAll (s : EngineState) : Bool :=
  s.entries.all (fun e =>
    match e.end_time with
    | some t => decide (e.start_time < t)
    | none => true)

/-- Checker for the C2 invariant on a concrete state. -/
def runEndDurAll (s : EngineState) : Bool :=
  s.entries.all (fun e =>
    (e.is_running == e.end_time.isNone) && (e.end_time.isNone == e.duration_seconds.isNone))

/-- An operation is harmless for the C2 invariant: any `updateTimeEntry`
that supplies a new `end_time` must target an interval that is not
running (other operations are always safe). -/
def updSafe (s : EngineState) : EngineOp → Bool
  | .update id _ (some _) _ => s.entries.all (fun e => !(e.id == id) || !e.is_running)
  | _ => true

/-- Every operation of the sequence is `updSafe` in the state it runs in. -/
def safeSeq : EngineState → List EngineOp → Bool
  | _, [] => true
  | s, op :: ops => updSafe s op && safeSeq (stepOp s op) ops

/-- A running interval for the project exists among the stored rows. -/
def HasRunning (s : EngineState) (pid : String) : Prop :=
  ∃ e ∈ s.entries, e.project_id = pid ∧ e.is_running = true

instance (s : EngineState) (pid : String) : Decidable (HasRunning s pid) := by
  unfold HasRunning
  exact List.decidableBEx _ _

/-- The paused-heuristic condition of the spec: the most recent interval
of the project exists, carries an `end_time`, and the elapsed time since
that `end_time` is at most 24 hours. -/
def RecentlyStopped (s : EngineState) (pid : String) (now : Int) : Prop :=
  match getLastEntryForProject s pid with
  | none => False
  | some le =>
    match le.end_time with
    | none => False
    | some t => now - t ≤ 86400000

instance (s : EngineState) (pid : String) (now : Int) :
    Decidable (RecentlyStopped s pid now) := by
  unfold RecentlyStopped
  split
  · exact isFalse id
  · split
    · exact isFalse id
    · exact inferInstance

/-- The four lifecycle operations claim C10 quantifies over. -/
def lifecycleOp : EngineOp → Prop
  | .start _ _ _ => True
  | .stop _ _ => True
  | .manual _ _ _ _ => True
  | .delete _ => True
  | _ => False

/-- Every stored interval with an `end_time` has it strictly after its
`start_time` (the first half of claim C3, as a predicate). -/
def EndAfterStartInv (s : EngineState) : Prop :=
  ∀ e ∈ s.entries, ∀ t, e.end_time = some t → e.start_time < t

instance (s : EngineState) : Decidable (RunEndDurInv s) := by
  unfold RunEndDurInv RunEndDurOK
  exact List.decidableBAll _ _

section ListLemmas

variable {α : Type _}

theorem countP_map_le_of_mem {p : α → Bool} {f : α → α} :
    ∀ {l : List α}, (∀ a ∈ l, p (f a) = true → p a = true) →
      (l.map f).countP p ≤ l.countP p := by
  intro l
  induction l with
  | nil => intro _; simp
  | cons a l ih =>
    intro h
    have hrest := ih (fun x hx => h x (List.mem_cons_of_mem _ hx))
    simp only [List.map_cons, List.countP_cons]
    cases hfa : p (f a) with
    | true =>
      have hpa : p a = true := h a (List.mem_cons_self _ _) hfa
      simp only [hpa, if_true]
      omega
    | false =>
      cases hpa : p a <;>
        simp only [eq_self_iff_true, if_true, Bool.false_eq_true, if_false] <;> omega

theorem countP_filter_le (p q : α → Bool) (l : List α) :
    (l.filter q).countP p ≤ l.countP p := by
  induction l with
  | nil => simp
  | cons a l ih =>
    by_cases hq : q a
    · simp only [List.filter_cons, hq, if_true, List.countP_cons]
      split <;> omega
    · simp only [List.filter_cons, hq, Bool.false_eq_true, if_false, List.countP_cons]
      split <;> omega

end ListLemmas

/-- Membership characterization of `isRunningFor`. -/
theorem isRunningFor_eq_true {pid : String} {e : TimeEntry} :
    isRunningFor pid e = true ↔ e.project_id = pid ∧ e.is_running = true := by
  simp [isRunningFor]

theorem hasRunning_iff_filter_ne_nil {s : EngineState} {pid : String} :
    HasRunning s pid ↔ s.entries.filter (isRunningFor pid) ≠ [] := by
  constructor
  · rintro ⟨e, he, hp, hr⟩ hnil
    have : e ∈ s.entries.filter (isRunningFor pid) :=
      List.mem_filter.mpr ⟨he, isRunningFor_eq_true.mpr ⟨hp, hr⟩⟩
    rw [hnil] at this
    exact absurd this (List.not_mem_nil e)
  · intro hne
    rcases List.exists_mem_of_ne_nil _ hne with ⟨e, he⟩
    rcases List.mem_filter.mp he with ⟨hmem, hpred⟩
    rcases isRunningFor_eq_true.mp hpred with ⟨hp, hr⟩
    exact ⟨e, hmem, hp, hr⟩

/-- Under the at-most-one invariant (restricted to one project), the
`.single()` query misses exactly when no running interval exists. -/
theorem getRunning_none_iff {s : EngineState} {pid : String}
    (h : s.entries.countP (isRunningFor pid) ≤ 1) :
    getRunningTimerForProject s pid = none ↔ ¬ HasRunning s pid := by
  rw [List.countP_eq_length_filter] at h
  rw [hasRunning_iff_filter_ne_nil]
  unfold getRunningTimerForProject
  cases hf : s.entries.filter (isRunningFor pid) with
  | nil => simp
  | cons a t =>
    cases t with
    | nil => simp
    | cons b t' => rw [hf] at h; simp at h

/-- A hit of the `.single()` query is a stored running interval of the
project. -/
theorem getRunning_some_spec {s : EngineState} {pid : String} {e : TimeEntry}
    (h : getRunningTimerForProject s pid = some e) :
    e ∈ s.entries ∧ e.project_id = pid ∧ e.is_running = true := by
  unfold getRunningTimerForProject at h
  cases hf : s.entries.filter (isRunningFor pid) with
  | nil => rw [hf] at h; simp at h
  | cons a t =>
    cases t with
    | nil =>
      rw [hf] at h
      have ha : a = e := by simpa using h
      have hmem : a ∈ s.entries.filter (isRunningFor pid) := by
        rw [hf]; exact List.mem_cons_self _ _
      rcases List.mem_filter.mp hmem with ⟨hin, hpred⟩
      rw [← ha]
      exact ⟨hin, isRunningFor_eq_true.mp hpred⟩
    | cons b t' => rw [hf] at h; simp at h

/-- A hit of the id lookup is the unique stored row with that id. -/
theorem findEntry_spec {s : EngineState} {id : Nat} {e : TimeEntry}
    (h : findEntry s id = some e) :
    e ∈ s.entries ∧ e.id = id ∧ ∀ x ∈ s.entries, x.id = id → x = e := by
  unfold findEntry at h
  cases hf : s.entries.filter (fun x => x.id == id) with
  | nil => rw [hf] at h; simp at h
  | cons a t =>
    cases t with
    | nil =>
      rw [hf] at h
      have ha : a = e := by simpa using h
      have hmem : a ∈ s.entries.filter (fun x => x.id == id) := by
        rw [hf]; exact List.mem_cons_self _ _
      rcases List.mem_filter.mp hmem with ⟨hin, hpred⟩
      rw [← ha]
      refine ⟨hin, by simpa using hpred, ?_⟩
      intro x hx hxid
      have hxmem : x ∈ s.entries.filter (fun x => x.id == id) :=
        List.mem_filter.mpr ⟨hx, by simpa using hxid⟩
      rw [hf] at hxmem
      simpa using hxmem
    | cons b t' => rw [hf] at h; simp at h

theorem stopUpdate_project_id (e : TimeEntry) (now : Int) :
    (stopUpdate e now).project_id = e.project_id := rfl

theorem stopUpdate_is_running (e : TimeEntry) (now : Int) :
    (stopUpdate e now).is_running = false := rfl

theorem applyFields_project_id (e : TimeEntry) (a b c : Option Int)
    (d : Option (Option String)) : (applyFields e a b c d).project_id = e.project_id := rfl

theorem applyFields_is_running (e : TimeEntry) (a b c : Option Int)
    (d : Option (Option String)) : (applyFields e a b c d).is_running = e.is_running := rfl

/-- If the `.single()` lookup for a project's running timer misses in a
state satisfying the per-project bound, no stored row of that project is
running. -/
theorem countP_zero_of_getRunning_none {s : EngineState} {pid : String}
    (hle : s.entries.countP (isRunningFor pid) ≤ 1)
    (hg : getRunningTimerForProject s pid = none) :
    s.entries.countP (isRunningFor pid) = 0 := by
  rw [List.countP_eq_length_filter] at hle ⊢
  unfold getRunningTimerForProject at hg
  cases hf : s.entries.filter (isRunningFor pid) with
  | nil => simp
  | cons a t =>
    cases t with
    | nil => rw [hf] at hg; simp at hg
    | cons b t' => rw [hf] at hle; simp at hle

theorem atMostOne_startTimer {s : EngineState} {pid : String}
    {notes : Option String} {now : Int} (h : AtMostOneRunning s) :
    AtMostOneRunning (startTimer s pid notes now).2 := by
  unfold startTimer
  cases hg : getRunningTimerForProject s pid with
  | some t => exact h
  | none =>
    intro pid'
    simp only [List.countP_append]
    by_cases hp : pid' = pid
    · subst hp
      have h0 := countP_zero_of_getRunning_none (h pid') hg
      rw [h0]
      simp only [List.countP_cons, List.countP_nil, Nat.zero_add]
      split <;> omega
    · have h1 := h pid'
      have hnew : isRunningFor pid' (newRunningEntry s pid notes now) = false := by
        simp only [isRunningFor, newRunningEntry, Bool.and_eq_false_iff]
        left
        exact beq_eq_false_iff_ne.mpr (fun hc => hp hc.symm)
      simp only [List.countP_cons, List.countP_nil, hnew]
      simpa using h1

theorem atMostOne_stopTimer {s : EngineState} {id : Nat} {now : Int}
    (h : AtMostOneRunning s) : AtMostOneRunning (stopTimer s id now).2 := by
  unfold stopTimer
  cases hfind : findEntry s id with
  | none => exact h
  | some cur =>
    by_cases hrun : cur.is_running
    · simp only [hrun, if_true]
      intro pid
      refine le_trans (countP_map_le_of_mem ?_) (h pid)
      intro a _ hpa
      by_cases hid : (a.id == id) = true
      · rw [if_pos hid] at hpa
        rw [isRunningFor] at hpa
        simp [stopUpdate] at hpa
      · rwa [if_neg hid] at hpa
    · simp only [hrun, if_false]
      exact h

theorem atMostOne_stopTimerForProject {s : EngineState} {pid : String}
    {now : Int} (h : AtMostOneRunning s) :
    AtMostOneRunning (stopTimerForProject s pid now).2 := by
  unfold stopTimerForProject
  cases hg : getRunningTimerForProject s pid with
  | none => exact h
  | some t => exact atMostOne_stopTimer h

theorem atMostOne_resumeTimer {s : EngineState} {pid : String}
    {copyNotes : Bool} {now : Int} (h : AtMostOneRunning s) :
    AtMostOneRunning (resumeTimer s pid copyNotes now).2 := by
  unfold resumeTimer
  cases hg : getRunningTimerForProject s pid with
  | some t => exact h
  | none => exact atMostOne_startTimer h

theorem atMostOne_createManualEntry {s : EngineState} {pid : String}
    {startT endT : Int} {notes : Option String} (h : AtMostOneRunning s) :
    AtMostOneRunning (createManualEntry s pid startT endT notes).2 := by
  unfold createManualEntry
  by_cases hd : Int.fdiv (endT - startT) 1000 ≤ 0
  · simp only [hd, if_true]; exact h
  · simp only [hd, if_false]
    intro pid'
    have hnew : isRunningFor pid' (newManualEntry s pid startT endT notes) = false := by
      simp [isRunningFor, newManualEntry]
    simp only [List.countP_append, List.countP_cons, List.countP_nil, hnew]
    simpa using h pid'

theorem atMostOne_applyTimeEntryUpdate {s : EngineState} {id : Nat}
    {ustart uend udur : Option Int} {unotes : Option (Option String)}
    (h : AtMostOneRunning s) :
    AtMostOneRunning (applyTimeEntryUpdate s id ustart uend udur unotes).2 := by
  unfold applyTimeEntryUpdate
  cases hfind : findEntry s id with
  | none => exact h
  | some e =>
    intro pid
    refine le_trans (countP_map_le_of_mem ?_) (h pid)
    intro a ha hpa
    by_cases hid : (a.id == id) = true
    · rw [if_pos hid] at hpa
      have hae : a = e :=
        (findEntry_spec hfind).2.2 a ha (by simpa using hid)
      subst hae
      rwa [isRunningFor, applyFields_project_id, applyFields_is_running] at hpa
    · rwa [if_neg hid] at hpa

theorem atMostOne_updateTimeEntry {s : EngineState} {id : Nat}
    {ustart uend : Option Int} {unotes : Option (Option String)}
    (h : AtMostOneRunning s) :
    AtMostOneRunning (updateTimeEntry s id ustart uend unotes).2 := by
  unfold updateTimeEntry
  cases ustart with
  | some st =>
    cases uend with
    | some en => exact atMostOne_applyTimeEntryUpdate h
    | none =>
      cases hfind : findEntry s id with
      | none => exact h
      | some existing => exact atMostOne_applyTimeEntryUpdate h
  | none =>
    cases uend with
    | some en =>
      cases hfind : findEntry s id with
      | none => exact h
      | some existing => exact atMostOne_applyTimeEntryUpdate h
    | none => exact atMostOne_applyTimeEntryUpdate h

theorem atMostOne_deleteTimeEntry {s : EngineState} {id : Nat}
    (h : AtMostOneRunning s) : AtMostOneRunning (deleteTimeEntry s id).2 := by
  unfold deleteTimeEntry
  cases hfind : findEntry s id with
  | none => exact h
  | some entry =>
    by_cases hrun : entry.is_running
    · simp only [hrun, if_true]; exact h
    · simp only [hrun, if_false]
      intro pid
      exact le_trans (countP_filter_le _ _ _) (h pid)

theorem atMostOne_stepOp {s : EngineState} (op : EngineOp)
    (h : AtMostOneRunning s) : AtMostOneRunning (stepOp s op) := by
  cases op with
  | start pid notes now => exact atMostOne_startTimer h
  | stop id now => exact atMostOne_stopTimer h
  | stopForProject pid now => exact atMostOne_stopTimerForProject h
  | pause pid now => exact atMostOne_stopTimerForProject h
  | resume pid copyNotes now => exact atMostOne_resumeTimer h
  | manual pid startT endT notes => exact atMostOne_createManualEntry h
  | update id ustart uend unotes => exact atMostOne_updateTimeEntry h
  | delete id => exact atMostOne_deleteTimeEntry h

theorem atMostOne_runOps {s : EngineState} (ops : List EngineOp)
    (h : AtMostOneRunning s) : AtMostOneRunning (runOps s ops) := by
  induction ops generalizing s with
  | nil => exact h
  | cons op ops ih => exact ih (atMostOne_stepOp op h)

/-- Pointwise preservation of an entry property by the replace-by-id map
the update/stop queries perform. -/
theorem forall_mem_map_replace {P : TimeEntry → Prop} {l : List TimeEntry}
    {upd : TimeEntry} {id : Nat}
    (hinv : ∀ a ∈ l, P a) (hupd : P upd) :
    ∀ b ∈ l.map (fun x => if x.id == id then upd else x), P b := by
  intro b hb
  rcases List.mem_map.mp hb with ⟨a, ha, rfl⟩
  by_cases hid : (a.id == id) = true
  · rw [if_pos hid]; exact hupd
  · rw [if_neg hid]; exact hinv a ha

theorem forall_mem_append_one {P : TimeEntry → Prop} {l : List TimeEntry}
    {e : TimeEntry} (hinv : ∀ a ∈ l, P a) (he : P e) :
    ∀ b ∈ l ++ [e], P b := by
  intro b hb
  rcases List.mem_append.mp hb with hb | hb
  · exact hinv b hb
  · rw [List.mem_singleton.mp hb]; exact he

theorem durEq_newRunningEntry {s : EngineState} {pid : String}
    {notes : Option String} {now : Int} :
    DurEqOK (newRunningEntry s pid notes now) := by
  intro t ht
  simp [newRunningEntry] at ht

theorem durEq_newManualEntry {s : EngineState} {pid : String}
    {startT endT : Int} {notes : Option String} :
    DurEqOK (newManualEntry s pid startT endT notes) := by
  intro t ht
  simp only [newManualEntry, Option.some_inj] at ht
  subst ht
  rfl

theorem durEq_stopUpdate {e : TimeEntry} {now : Int} :
    DurEqOK (stopUpdate e now) := by
  intro t ht
  simp only [stopUpdate, Option.some_inj] at ht
  subst ht
  rfl

theorem durEq_applyTimeEntryUpdate {s : EngineState} {id : Nat}
    {ustart uend udur : Option Int} {unotes : Option (Option String)}
    (h : DurEqInv s)
    (hupd : ∀ e, findEntry s id = some e →
      DurEqOK (applyFields e ustart uend udur unotes)) :
    DurEqInv (applyTimeEntryUpdate s id ustart uend udur unotes).2 := by
  unfold applyTimeEntryUpdate
  cases hfind : findEntry s id with
  | none => exact h
  | some e =>
    exact forall_mem_map_replace h (hupd e hfind)

theorem durEq_updateTimeEntry {s : EngineState} {id : Nat}
    {ustart uend : Option Int} {unotes : Option (Option String)}
    (h : DurEqInv s) : DurEqInv (updateTimeEntry s id ustart uend unotes).2 := by
  unfold updateTimeEntry
  cases ustart with
  | some st =>
    cases uend with
    | some en =>
      refine durEq_applyTimeEntryUpdate h ?_
      intro e _ t ht
      simp only [applyFields, Option.some_inj] at ht ⊢
      subst ht
      rfl
    | none =>
      cases hfind : findEntry s id with
      | none => exact h
      | some existing =>
        refine durEq_applyTimeEntryUpdate h ?_
        intro e hfind2 t ht
        have hee : existing = e := by rw [hfind] at hfind2; simpa using hfind2
        subst hee
        simp only [applyFields] at ht ⊢
        rw [ht]
        rfl
  | none =>
    cases uend with
    | some en =>
      cases hfind : findEntry s id with
      | none => exact h
      | some existing =>
        refine durEq_applyTimeEntryUpdate h ?_
        intro e hfind2 t ht
        have hee : existing = e := by rw [hfind] at hfind2; simpa using hfind2
        subst hee
        simp only [applyFields, Option.some_inj] at ht ⊢
        subst ht
        rfl
    | none =>
      refine durEq_applyTimeEntryUpdate h ?_
      intro e hfind t ht
      simp only [applyFields] at ht ⊢
      exact h e (findEntry_spec hfind).1 t ht

theorem durEq_startTimer {s : EngineState} {pid : String}
    {notes : Option String} {now : Int} (h : DurEqInv s) :
    DurEqInv (startTimer s pid notes now).2 := by
  unfold startTimer
  cases hg : getRunningTimerForProject s pid with
  | some t => exact h
  | none => exact forall_mem_append_one h durEq_newRunningEntry

theorem durEq_stopTimer {s : EngineState} {id : Nat} {now : Int}
    (h : DurEqInv s) : DurEqInv (stopTimer s id now).2 := by
  unfold stopTimer
  cases hfind : findEntry s id with
  | none => exact h
  | some cur =>
    by_cases hrun : cur.is_running
    · simp only [hrun, if_true]
      exact forall_mem_map_replace h durEq_stopUpdate
    · simp only [hrun, if_false]; exact h

theorem durEq_stopTimerForProject {s : EngineState} {pid : String}
    {now : Int} (h : DurEqInv s) :
    DurEqInv (stopTimerForProject s pid now).2 := by
  unfold stopTimerForProject
  cases hg : getRunningTimerForProject s pid with
  | none => exact h
  | some t => exact durEq_stopTimer h

theorem durEq_resumeTimer {s : EngineState} {pid : String}
    {copyNotes : Bool} {now : Int} (h : DurEqInv s) :
    DurEqInv (resumeTimer s pid copyNotes now).2 := by
  unfold resumeTimer
  cases hg : getRunningTimerForProject s pid with
  | some t => exact h
  | none => exact durEq_startTimer h

theorem durEq_createManualEntry {s : EngineState} {pid : String}
    {startT endT : Int} {notes : Option String} (h : DurEqInv s) :
    DurEqInv (createManualEntry s pid startT endT notes).2 := by
  unfold createManualEntry
  by_cases hd : Int.fdiv (endT - startT) 1000 ≤ 0
  · simp only [hd, if_true]; exact h
  · simp only [hd, if_false]
    exact forall_mem_append_one h durEq_newManualEntry

theorem durEq_deleteTimeEntry {s : EngineState} {id : Nat}
    (h : DurEqInv s) : DurEqInv (deleteTimeEntry s id).2 := by
  unfold deleteTimeEntry
  cases hfind : findEntry s id with
  | none => exact h
  | some entry =>
    by_cases hrun : entry.is_running
    · simp only [hrun, if_true]; exact h
    · simp only [hrun, if_false]
      intro e he
      exact h e (List.mem_of_mem_filter he)

theorem durEq_stepOp {s : EngineState} (op : EngineOp)
    (h : DurEqInv s) : DurEqInv (stepOp s op) := by
  cases op with
  | start pid notes now => exact durEq_startTimer h
  | stop id now => exact durEq_stopTimer h
  | stopForProject pid now => exact durEq_stopTimerForProject h
  | pause pid now => exact durEq_stopTimerForProject h
  | resume pid copyNotes now => exact durEq_resumeTimer h
  | manual pid startT endT notes => exact durEq_createManualEntry h
  | update id ustart uend unotes => exact durEq_updateTimeEntry h
  | delete id => exact durEq_deleteTimeEntry h

theorem durEq_runOps {s : EngineState} (ops : List EngineOp)
    (h : DurEqInv s) : DurEqInv (runOps s ops) := by
  induction ops generalizing s with
  | nil => exact h
  | cons op ops ih => exact ih (durEq_stepOp op h)

theorem runEndDur_newRunningEntry {s : EngineState} {pid : String}
    {notes : Option String} {now : Int} :
    RunEndDurOK (newRunningEntry s pid notes now) := by
  simp [RunEndDurOK, newRunningEntry]

theorem runEndDur_newManualEntry {s : EngineState} {pid : String}
    {startT endT : Int} {notes : Option String} :
    RunEndDurOK (newManualEntry s pid startT endT notes) := by
  simp [RunEndDurOK, newManualEntry]

theorem runEndDur_stopUpdate {e : TimeEntry} {now : Int} :
    RunEndDurOK (stopUpdate e now) := by
  simp [RunEndDurOK, stopUpdate]

theorem runEndDur_applyTimeEntryUpdate {s : EngineState} {id : Nat}
    {ustart uend udur : Option Int} {unotes : Option (Option String)}
    (h : RunEndDurInv s)
    (hupd : ∀ e, findEntry s id = some e →
      RunEndDurOK (applyFields e ustart uend udur unotes)) :
    RunEndDurInv (applyTimeEntryUpdate s id ustart uend udur unotes).2 := by
  unfold applyTimeEntryUpdate
  cases hfind : findEntry s id with
  | none => exact h
  | some e =>
    exact forall_mem_map_replace h (hupd e hfind)

/-- The safety side condition on an end-time-bearing update says the
targeted interval is not running. -/
theorem updSafe_not_running {s : EngineState} {id : Nat}
    {ustart : Option Int} {u : Int} {unotes : Option (Option String)}
    {e : TimeEntry}
    (hsafe : updSafe s (EngineOp.update id ustart (some u) unotes) = true)
    (hfind : findEntry s id = some e) : e.is_running = false := by
  simp only [updSafe, List.all_eq_true] at hsafe
  rcases findEntry_spec hfind with ⟨hmem, hid, _⟩
  have hsf := hsafe e hmem
  simp only [hid, beq_self_eq_true, Bool.not_true, Bool.false_or,
    Bool.not_eq_true'] at hsf
  exact hsf

theorem runEndDur_updateTimeEntry {s : EngineState} {id : Nat}
    {ustart uend : Option Int} {unotes : Option (Option String)}
    (h : RunEndDurInv s)
    (hsafe : updSafe s (EngineOp.update id ustart uend unotes) = true) :
    RunEndDurInv (updateTimeEntry s id ustart uend unotes).2 := by
  unfold updateTimeEntry
  cases ustart with
  | some st =>
    cases uend with
    | some en =>
      refine runEndDur_applyTimeEntryUpdate h ?_
      intro e hfind
      have hrun := updSafe_not_running hsafe hfind
      simp [RunEndDurOK, applyFields, hrun]
    | none =>
      cases hfind : findEntry s id with
      | none => exact h
      | some existing =>
        refine runEndDur_applyTimeEntryUpdate h ?_
        intro e hfind2
        have hee : existing = e := by rw [hfind] at hfind2; simpa using hfind2
        subst hee
        have hok := h existing (findEntry_spec hfind).1
        cases he : existing.end_time with
        | some t2 =>
          have hrun : existing.is_running = false := by
            rcases hok with ⟨hok1, _⟩
            rw [he] at hok1
            simpa using hok1
          simp [RunEndDurOK, applyFields, he, hrun]
        | none =>
          have hrun : existing.is_running = true := by
            rcases hok with ⟨hok1, _⟩
            rw [he] at hok1
            simpa using hok1
          have hdur : existing.duration_seconds = none := by
            rcases hok with ⟨_, hok2⟩
            rw [he] at hok2
            simpa using hok2
          simp [RunEndDurOK, applyFields, he, hrun, hdur]
  | none =>
    cases uend with
    | some en =>
      cases hfind : findEntry s id with
      | none => exact h
      | some existing =>
        refine runEndDur_applyTimeEntryUpdate h ?_
        intro e hfind2
        have hee : existing = e := by rw [hfind] at hfind2; simpa using hfind2
        subst hee
        have hrun := updSafe_not_running hsafe hfind
        simp [RunEndDurOK, applyFields, hrun]
    | none =>
      refine runEndDur_applyTimeEntryUpdate h ?_
      intro e hfind
      have hok := h e (findEntry_spec hfind).1
      simpa [RunEndDurOK, applyFields] using hok

theorem runEndDur_startTimer {s : EngineState} {pid : String}
    {notes : Option String} {now : Int} (h : RunEndDurInv s) :
    RunEndDurInv (startTimer s pid notes now).2 := by
  unfold startTimer
  cases hg : getRunningTimerForProject s pid with
  | some t => exact h
  | none => exact forall_mem_append_one h runEndDur_newRunningEntry

theorem runEndDur_stopTimer {s : EngineState} {id : Nat} {now : Int}
    (h : RunEndDurInv s) : RunEndDurInv (stopTimer s id now).2 := by
  unfold stopTimer
  cases hfind : findEntry s id with
  | none => exact h
  | some cur =>
    by_cases hrun : cur.is_running
    · simp only [hrun, if_true]
      exact forall_mem_map_replace h runEndDur_stopUpdate
    · simp only [hrun, if_false]; exact h

theorem runEndDur_stopTimerForProject {s : EngineState} {pid : String}
    {now : Int} (h : RunEndDurInv s) :
    RunEndDurInv (stopTimerForProject s pid now).2 := by
  unfold stopTimerForProject
  cases hg : getRunningTimerForProject s pid with
  | none => exact h
  | some t => exact runEndDur_stopTimer h

theorem runEndDur_resumeTimer {s : EngineState} {pid : String}
    {copyNotes : Bool} {now : Int} (h : RunEndDurInv s) :
    RunEndDurInv (resumeTimer s pid copyNotes now).2 := by
  unfold resumeTimer
  cases hg : getRunningTimerForProject s pid with
  | some t => exact h
  | none => exact runEndDur_startTimer h

theorem runEndDur_createManualEntry {s : EngineState} {pid : String}
    {startT endT : Int} {notes : Option String} (h : RunEndDurInv s) :
    RunEndDurInv (createManualEntry s pid startT endT notes).2 := by
  unfold createManualEntry
  by_cases hd : Int.fdiv (endT - startT) 1000 ≤ 0
  · simp only [hd, if_true]; exact h
  · simp only [hd, if_false]
    exact forall_mem_append_one h runEndDur_newManualEntry

theorem runEndDur_deleteTimeEntry {s : EngineState} {id : Nat}
    (h : RunEndDurInv s) : RunEndDurInv (deleteTimeEntry s id).2 := by
  unfold deleteTimeEntry
  cases hfind : findEntry s id with
  | none => exact h
  | some entry =>
    by_cases hrun : entry.is_running
    · simp only [hrun, if_true]; exact h
    · simp only [hrun, if_false]
      intro e he
      exact h e (List.mem_of_mem_filter he)

theorem runEndDur_stepOp {s : EngineState} {op : EngineOp}
    (h : RunEndDurInv s) (hsafe : updSafe s op = true) :
    RunEndDurInv (stepOp s op) := by
  cases op with
  | start pid notes now => exact runEndDur_startTimer h
  | stop id now => exact runEndDur_stopTimer h
  | stopForProject pid now => exact runEndDur_stopTimerForProject h
  | pause pid now => exact runEndDur_stopTimerForProject h
  | resume pid copyNotes now => exact runEndDur_resumeTimer h
  | manual pid startT endT notes => exact runEndDur_createManualEntry h
  | update id ustart uend unotes => exact runEndDur_updateTimeEntry h hsafe
  | delete id => exact runEndDur_deleteTimeEntry h

theorem runEndDur_runOps {s : EngineState} {ops : List EngineOp}
    (h : RunEndDurInv s) (hs : safeSeq s ops = true) :
    RunEndDurInv (runOps s ops) := by
  induction ops generalizing s with
  | nil => exact h
  | cons op ops ih =>
    rw [safeSeq, Bool.and_eq_true] at hs
    exact ih (runEndDur_stepOp h hs.1) hs.2

theorem notesOrNull_eq {notes : Option String} (h : notes ≠ some "") :
    notesOrNull notes = notes := by
  cases notes with
  | none => rfl
  | some str =>
    have hne : (str == "") = false := by
      refine beq_eq_false_iff_ne.mpr ?_
      intro hstr
      exact h (by rw [hstr])
    simp [notesOrNull, hne]

theorem notesOrNull_truthyNote (o : Option TimeEntry) :
    notesOrNull (truthyNote o) = truthyNote o := by
  cases o with
  | none => rfl
  | some le =>
    cases hn : le.notes with
    | none => simp [truthyNote, hn, notesOrNull]
    | some str =>
      by_cases hs : (str == "") = true
      · simp [truthyNote, hn, hs, notesOrNull]
      · simp only [Bool.not_eq_true] at hs
        simp [truthyNote, hn, hs, notesOrNull]

theorem findEntry_none_of {s : EngineState} {id : Nat}
    (h : ∀ x ∈ s.entries, x.id ≠ id) : findEntry s id = none := by
  unfold findEntry
  have hnil : s.entries.filter (fun e => e.id == id) = [] := by
    rw [List.filter_eq_nil_iff]
    intro a ha
    simpa using h a ha
  rw [hnil]

theorem runEndDurAll_iff {s : EngineState} :
    runEndDurAll s = true ↔ RunEndDurInv s := by
  unfold runEndDurAll RunEndDurInv RunEndDurOK
  rw [List.all_eq_true]
  constructor
  · intro H e he
    have := H e he
    cases hr : e.is_running <;> cases hend : e.end_time <;>
      cases hd : e.duration_seconds <;>
      simp_all
  · intro H e he
    have := H e he
    cases hr : e.is_running <;> cases hend : e.end_time <;>
      cases hd : e.duration_seconds <;>
      simp_all

theorem endAfterStartAll_iff {s : EngineState} :
    endAfterStartAll s = true ↔ EndAfterStartInv s := by
  unfold endAfterStartAll EndAfterStartInv
  rw [List.all_eq_true]
  constructor
  · intro H e he t ht
    have := H e he
    rw [ht] at this
    simpa using this
  · intro H e he
    cases hend : e.end_time with
    | none => rfl
    | some t => simpa using H e he t hend

/-- C1: for every project P, after any sequence of engine operations
(startTimer, stopTimer, stopTimerForProject, pauseTimer, resumeTimer,
createManualEntry, updateTimeEntry, deleteTimeEntry) executed
sequentially from any state satisfying the invariant, at most one stored
interval has `project_id = P` and `is_running = true`. -/
theorem claim1_at_most_one_running (s : EngineState) (ops : List EngineOp)
    (h : AtMostOneRunning s) : AtMostOneRunning (runOps s ops) :=
  atMostOne_runOps ops h

theorem claim1_at_most_one_running_witness :
    AtMostOneRunning (⟨[], 0⟩ : EngineState) ∧
    AtMostOneRunning (runOps ⟨[], 0⟩
      [EngineOp.start "P1" none 0, EngineOp.start "P1" none 10,
       EngineOp.start "P2" none 20, EngineOp.stop 0 90000,
       EngineOp.resume "P1" true 100000]) := by
  have h0 : AtMostOneRunning (⟨[], 0⟩ : EngineState) := by
    intro pid
    simp [List.countP_nil]
  exact ⟨h0, claim1_at_most_one_running ⟨[], 0⟩ _ h0⟩

/-- C2 counterexample: starting a timer and then calling updateTimeEntry
with only a new `end_time` on the running interval leaves
`is_running = true` while `end_time` and `duration_seconds` are present,
so the claimed invariant fails after a sequence that includes
updateTimeEntry. -/
theorem claim2_run_end_dur_counterexample :
    RunEndDurInv (⟨[], 0⟩ : EngineState) ∧
    ¬ RunEndDurInv (runOps ⟨[], 0⟩
        [EngineOp.start "P1" none 0, EngineOp.update 0 none (some 5000) none]) := by
  constructor
  · intro e he
    exact absurd he (List.not_mem_nil e)
  · intro hinv
    have htrue := runEndDurAll_iff.mpr hinv
    have hfalse : runEndDurAll (runOps ⟨[], 0⟩
        [EngineOp.start "P1" none 0, EngineOp.update 0 none (some 5000) none]) = false := by
      decide
    rw [hfalse] at htrue
    exact Bool.false_ne_true htrue

/-- C2 (amended): for every stored interval, `is_running = true` holds
iff `end_time` is absent iff `duration_seconds` is absent, after any
sequence of engine operations in which every updateTimeEntry that
supplies a new `end_time` targets a non-running interval; an
updateTimeEntry that supplies an `end_time` for a running interval
breaks the equivalence (it stores `end_time` and `duration_seconds` but
leaves `is_running = true`). -/
theorem claim2_run_end_dur_amended (s : EngineState) (ops : List EngineOp)
    (h : RunEndDurInv s) (hs : safeSeq s ops = true) :
    RunEndDurInv (runOps s ops) :=
  runEndDur_runOps h hs

theorem claim2_run_end_dur_amended_witness :
    RunEndDurInv (⟨[], 0⟩ : EngineState) ∧
    safeSeq ⟨[], 0⟩
      [EngineOp.start "P1" (some "x") 0, EngineOp.stop 0 90000,
       EngineOp.update 0 (some 1000) none none,
       EngineOp.update 0 none (some 95000) none,
       EngineOp.manual "P2" 0 60000 none, EngineOp.resume "P1" true 100000,
       EngineOp.delete 1] = true ∧
    RunEndDurInv (runOps ⟨[], 0⟩
      [EngineOp.start "P1" (some "x") 0, EngineOp.stop 0 90000,
       EngineOp.update 0 (some 1000) none none,
       EngineOp.update 0 none (some 95000) none,
       EngineOp.manual "P2" 0 60000 none, EngineOp.resume "P1" true 100000,
       EngineOp.delete 1]) := by
  have h0 : RunEndDurInv (⟨[], 0⟩ : EngineState) := by
    intro e he
    exact absurd he (List.not_mem_nil e)
  have hs : safeSeq ⟨[], 0⟩
      [EngineOp.start "P1" (some "x") 0, EngineOp.stop 0 90000,
       EngineOp.update 0 (some 1000) none none,
       EngineOp.update 0 none (some 95000) none,
       EngineOp.manual "P2" 0 60000 none, EngineOp.resume "P1" true 100000,
       EngineOp.delete 1] = true := by decide
  exact ⟨h0, hs, claim2_run_end_dur_amended ⟨[], 0⟩ _ h0 hs⟩

/-- C3 counterexample: updateTimeEntry accepts an edit that moves
`end_time` strictly before `start_time` (no validation), so the claimed
`end_time > start_time` invariant fails after a sequence of engine
operations started from a state satisfying it. -/
theorem claim3_end_after_start_counterexample :
    EndAfterStartInv (⟨[], 0⟩ : EngineState) ∧
    ¬ EndAfterStartInv (runOps ⟨[], 0⟩
        [EngineOp.manual "P1" 0 2000 none,
         EngineOp.update 0 none (some (-1000)) none]) := by
  constructor
  · intro e he
    exact absurd he (List.not_mem_nil e)
  · intro hinv
    have htrue := endAfterStartAll_iff.mpr hinv
    have hfalse : endAfterStartAll (runOps ⟨[], 0⟩
        [EngineOp.manual "P1" 0 2000 none,
         EngineOp.update 0 none (some (-1000)) none]) = false := by decide
    rw [hfalse] at htrue
    exact Bool.false_ne_true htrue

/-- C3 (amended): for every stored interval in which `end_time` is
present, `duration_seconds` is present and equals
floor((end_time − start_time) in seconds), after any sequence of engine
operations from a state satisfying the same equation; the
`end_time > start_time` half of the claim is not preserved, because
updateTimeEntry performs no ordering validation. -/
theorem claim3_duration_equation_amended (s : EngineState)
    (ops : List EngineOp) (h : DurEqInv s) : DurEqInv (runOps s ops) :=
  durEq_runOps ops h

theorem claim3_duration_equation_amended_witness :
    DurEqInv (⟨[], 0⟩ : EngineState) ∧
    DurEqInv (runOps ⟨[], 0⟩
      [EngineOp.start "P1" none 0, EngineOp.stop 0 90500,
       EngineOp.manual "P2" 0 60000 none,
       EngineOp.update 0 (some 1000) none none,
       EngineOp.update 1 none (some 59000) none]) := by
  have h0 : DurEqInv (⟨[], 0⟩ : EngineState) := by
    intro e he
    exact absurd he (List.not_mem_nil e)
  exact ⟨h0, claim3_duration_equation_amended ⟨[], 0⟩ _ h0⟩

/-- C4 counterexample: startTimer called with an empty-string notes
argument succeeds but stores `notes` as absent (the source coerces a
falsy notes value with `notes || null`), so the created interval does
not carry the notes as given. -/
theorem claim4_start_timer_counterexample :
    (startTimer ⟨[], 0⟩ "P1" (some "") 0).1.success = true ∧
    (startTimer ⟨[], 0⟩ "P1" (some "") 0).1.timeEntry.map TimeEntry.notes =
      some none ∧
    (startTimer ⟨[], 0⟩ "P1" (some "") 0).1.timeEntry.map TimeEntry.notes ≠
      some (some "") := by decide

/-- C4 (amended): in any state with at most one running interval per
project, startTimer fails with the conflict error exactly when a running
interval already exists for the project, and otherwise creates and
returns a new interval with `start_time = now`, `end_time` absent,
`duration_seconds` absent, `is_running = true`, `is_manual = false`, and
notes as given — except that an empty-string notes argument is stored as
absent. -/
theorem claim4_start_timer_amended (s : EngineState) (pid : String)
    (notes : Option String) (now : Int) (hinv : AtMostOneRunning s)
    (hnotes : notes ≠ some "") :
    (HasRunning s pid →
      startTimer s pid notes now =
        (⟨false, none, some "A timer is already running for this project"⟩, s)) ∧
    (¬ HasRunning s pid →
      startTimer s pid notes now =
        (⟨true, some { id := s.nextId, project_id := pid, start_time := now,
                       end_time := none, duration_seconds := none,
                       is_running := true, is_manual := false,
                       notes := notes }, none⟩,
         ⟨s.entries ++ [{ id := s.nextId, project_id := pid, start_time := now,
                          end_time := none, duration_seconds := none,
                          is_running := true, is_manual := false,
                          notes := notes }], s.nextId + 1⟩)) := by
  constructor
  · intro hex
    cases hg : getRunningTimerForProject s pid with
    | none => exact absurd hex ((getRunning_none_iff (hinv pid)).mp hg)
    | some t =>
      unfold startTimer
      rw [hg]
  · intro hnex
    have hg : getRunningTimerForProject s pid = none :=
      (getRunning_none_iff (hinv pid)).mpr hnex
    unfold startTimer
    rw [hg]
    simp only [newRunningEntry, notesOrNull_eq hnotes]

theorem claim4_start_timer_amended_witness :
    AtMostOneRunning (⟨[], 0⟩ : EngineState) ∧
    (some "note" : Option String) ≠ some "" ∧
    ¬ HasRunning ⟨[], 0⟩ "P1" ∧
    startTimer ⟨[], 0⟩ "P1" (some "note") 5 =
      (⟨true, some { id := 0, project_id := "P1", start_time := 5,
                     end_time := none, duration_seconds := none,
                     is_running := true, is_manual := false,
                     notes := some "note" }, none⟩,
       ⟨[{ id := 0, project_id := "P1", start_time := 5, end_time := none,
           duration_seconds := none, is_running := true, is_manual := false,
           notes := some "note" }], 1⟩) := by
  have h0 : AtMostOneRunning (⟨[], 0⟩ : EngineState) := by
    intro pid
    simp [List.countP_nil]
  refine ⟨h0, by decide, by decide, ?_⟩
  exact (claim4_start_timer_amended ⟨[], 0⟩ "P1" (some "note") 5 h0
    (by decide)).2 (by decide)

/-- C5: stopTimer fails with the not-found error when no stored interval
has the id, and applied to a running interval it sets `end_time = now`,
`duration_seconds = floor((now − start_time) in seconds)`,
`is_running = false`, and returns the updated record. -/
theorem claim5_stop_timer (s : EngineState) (id : Nat) (now : Int) :
    ((∀ x ∈ s.entries, x.id ≠ id) →
      stopTimer s id now = (⟨false, none, some "Time entry not found"⟩, s)) ∧
    (∀ e, findEntry s id = some e → e.is_running = true →
      stopTimer s id now =
        (⟨true,
          some { e with
                 end_time := some now
                 duration_seconds := some (Int.fdiv (now - e.start_time) 1000)
                 is_running := false },
          none⟩,
         ⟨s.entries.map (fun x =>
             if x.id == id then
               { e with
                 end_time := some now
                 duration_seconds := some (Int.fdiv (now - e.start_time) 1000)
                 is_running := false }
             else x),
          s.nextId⟩)) := by
  constructor
  · intro hnone
    unfold stopTimer
    rw [findEntry_none_of hnone]
  · intro e hfind hrun
    unfold stopTimer
    rw [hfind]
    simp [hrun, stopUpdate]

theorem claim5_stop_timer_witness :
    findEntry (runOps ⟨[], 0⟩ [EngineOp.start "P1" none 0]) 0 =
      some { id := 0, project_id := "P1", start_time := 0, end_time := none,
             duration_seconds := none, is_running := true, is_manual := false,
             notes := none } ∧
    (stopTimer (runOps ⟨[], 0⟩ [EngineOp.start "P1" none 0]) 0 90000).1.timeEntry.map
        TimeEntry.duration_seconds = some (some 90) ∧
    (stopTimer (runOps ⟨[], 0⟩ [EngineOp.start "P1" none 0]) 0 90000).1.timeEntry.map
        TimeEntry.is_running = some false := by
  have h := (claim5_stop_timer (runOps ⟨[], 0⟩ [EngineOp.start "P1" none 0])
    0 90000).2
    { id := 0, project_id := "P1", start_time := 0, end_time := none,
      duration_seconds := none, is_running := true, is_manual := false,
      notes := none } (by decide) (by decide)
  refine ⟨by decide, ?_, ?_⟩ <;> rw [h] <;> decide

/-- C6 counterexample: a manual entry whose end is 500 ms after its
start has `end_time > start_time`, yet createManualEntry rejects it,
because the floored duration is 0; so failure is not equivalent to
`end_time <= start_time`. -/
theorem claim6_manual_entry_counterexample :
    ((0 : Int) < 500) ∧
    (createManualEntry ⟨[], 0⟩ "P1" 0 500 none).1.success = false ∧
    (createManualEntry ⟨[], 0⟩ "P1" 0 500 none).1.error =
      some "End time must be after start time" := by decide

/-- C6 (amended): createManualEntry fails with the validation error
exactly when floor((end_time − start_time) in seconds) ≤ 0 — in
particular whenever `end_time <= start_time`, but also for positive
sub-second spans — and otherwise succeeds, creating a closed interval
with `is_manual = true` and `duration_seconds` equal to that floor. -/
theorem claim6_manual_entry_amended (s : EngineState) (pid : String)
    (startT endT : Int) (notes : Option String) :
    (endT ≤ startT →
      (createManualEntry s pid startT endT notes).1.success = false) ∧
    (Int.fdiv (endT - startT) 1000 ≤ 0 →
      createManualEntry s pid startT endT notes =
        (⟨false, none, some "End time must be after start time"⟩, s)) ∧
    (0 < Int.fdiv (endT - startT) 1000 →
      createManualEntry s pid startT endT notes =
        (⟨true, some { id := s.nextId, project_id := pid, start_time := startT,
                       end_time := some endT,
                       duration_seconds := some (Int.fdiv (endT - startT) 1000),
                       is_running := false, is_manual := true,
                       notes := notesOrNull notes }, none⟩,
         ⟨s.entries ++ [{ id := s.nextId, project_id := pid,
                          start_time := startT, end_time := some endT,
                          duration_seconds := some (Int.fdiv (endT - startT) 1000),
                          is_running := false, is_manual := true,
                          notes := notesOrNull notes }], s.nextId + 1⟩)) := by
  have herr : ∀ hd : Int.fdiv (endT - startT) 1000 ≤ 0,
      createManualEntry s pid startT endT notes =
        (⟨false, none, some "End time must be after start time"⟩, s) := by
    intro hd
    unfold createManualEntry
    rw [if_pos hd]
  refine ⟨?_, herr, ?_⟩
  · intro hle
    have hd : Int.fdiv (endT - startT) 1000 ≤ 0 := by
      rw [Int.fdiv_eq_ediv _ (by norm_num)]
      calc (endT - startT) / 1000 ≤ 0 / 1000 :=
            Int.ediv_le_ediv (by norm_num) (by omega)
        _ = 0 := Int.zero_ediv 1000
    rw [herr hd]
  · intro hpos
    unfold createManualEntry
    rw [if_neg (not_le.mpr hpos)]
    rfl

theorem claim6_manual_entry_amended_witness :
    (0 : Int) < Int.fdiv (1000 - 0) 1000 ∧
    (createManualEntry ⟨[], 0⟩ "P1" 0 1000 none).1.success = true ∧
    (createManualEntry ⟨[], 0⟩ "P1" 0 1000 none).1.timeEntry.map
        TimeEntry.duration_seconds = some (some 1) ∧
    (createManualEntry ⟨[], 0⟩ "P1" 0 1000 none).1.timeEntry.map
        TimeEntry.is_manual = some true := by
  have h := (claim6_manual_entry_amended ⟨[], 0⟩ "P1" 0 1000 none).2.2 (by decide)
  refine ⟨by decide, ?_, ?_, ?_⟩ <;> rw [h] <;> decide

/-- C7: stopTimer on a stored non-running interval fails with the
invalid-state error; deleteTimeEntry on a running interval fails with
the invalid-state error; deleteTimeEntry on a stored closed interval
removes it; deleteTimeEntry on a missing id fails with the not-found
error. -/
theorem claim7_invalid_state_guards (s : EngineState) (id : Nat) (now : Int) :
    (∀ e, findEntry s id = some e → e.is_running = false →
      stopTimer s id now = (⟨false, none, some "Timer is not running"⟩, s)) ∧
    (∀ e, findEntry s id = some e → e.is_running = true →
      deleteTimeEntry s id =
        (⟨false, none, some "Cannot delete a running timer. Stop it first."⟩, s)) ∧
    (∀ e, findEntry s id = some e → e.is_running = false →
      deleteTimeEntry s id =
        (⟨true, none, none⟩,
         ⟨s.entries.filter (fun x => !(x.id == id)), s.nextId⟩) ∧
      ∀ x ∈ (deleteTimeEntry s id).2.entries, x.id ≠ id) ∧
    ((∀ x ∈ s.entries, x.id ≠ id) →
      deleteTimeEntry s id = (⟨false, none, some "Entry not found"⟩, s)) := by
  refine ⟨?_, ?_, ?_, ?_⟩
  · intro e hfind hrun
    unfold stopTimer
    rw [hfind]
    simp [hrun]
  · intro e hfind hrun
    unfold deleteTimeEntry
    rw [hfind]
    simp [hrun]
  · intro e hfind hrun
    have heq : deleteTimeEntry s id =
        (⟨true, none, none⟩,
         ⟨s.entries.filter (fun x => !(x.id == id)), s.nextId⟩) := by
      unfold deleteTimeEntry
      rw [hfind]
      simp [hrun]
    refine ⟨heq, ?_⟩
    intro x hx
    rw [heq] at hx
    have := List.mem_filter.mp hx
    simpa using this.2
  · intro hnone
    unfold deleteTimeEntry
    rw [findEntry_none_of hnone]

theorem claim7_invalid_state_guards_witness :
    stopTimer (runOps ⟨[], 0⟩ [EngineOp.start "P1" none 0, EngineOp.stop 0 5000])
        0 6000 =
      (⟨false, none, some "Timer is not running"⟩,
       runOps ⟨[], 0⟩ [EngineOp.start "P1" none 0, EngineOp.stop 0 5000]) ∧
    deleteTimeEntry (runOps ⟨[], 0⟩ [EngineOp.start "P1" none 0]) 0 =
      (⟨false, none, some "Cannot delete a running timer. Stop it first."⟩,
       runOps ⟨[], 0⟩ [EngineOp.start "P1" none 0]) ∧
    (deleteTimeEntry (runOps ⟨[], 0⟩
        [EngineOp.start "P1" none 0, EngineOp.stop 0 5000]) 0).1.success = true ∧
    (deleteTimeEntry (runOps ⟨[], 0⟩
        [EngineOp.start "P1" none 0, EngineOp.stop 0 5000]) 0).2.entries = [] ∧
    deleteTimeEntry (⟨[], 0⟩ : EngineState) 7 =
      (⟨false, none, some "Entry not found"⟩, (⟨[], 0⟩ : EngineState)) := by
  have hstop := (claim7_invalid_state_guards
    (runOps ⟨[], 0⟩ [EngineOp.start "P1" none 0, EngineOp.stop 0 5000]) 0 6000).1
    { id := 0, project_id := "P1", start_time := 0, end_time := some 5000,
      duration_seconds := some 5, is_running := false, is_manual := false,
      notes := none } (by decide) (by decide)
  have hdelrun := (claim7_invalid_state_guards
    (runOps ⟨[], 0⟩ [EngineOp.start "P1" none 0]) 0 0).2.1
    { id := 0, project_id := "P1", start_time := 0, end_time := none,
      duration_seconds := none, is_running := true, is_manual := false,
      notes := none } (by decide) (by decide)
  have hdelok := ((claim7_invalid_state_guards
    (runOps ⟨[], 0⟩ [EngineOp.start "P1" none 0, EngineOp.stop 0 5000]) 0 0).2.2.1
    { id := 0, project_id := "P1", start_time := 0, end_time := some 5000,
      duration_seconds := some 5, is_running := false, is_manual := false,
      notes := none } (by decide) (by decide)).1
  have hmiss := (claim7_invalid_state_guards (⟨[], 0⟩ : EngineState) 7 0).2.2.2
    (by intro x hx; exact absurd hx (List.not_mem_nil x))
  refine ⟨hstop, hdelrun, ?_, ?_, hmiss⟩
  · rw [hdelok]
  · rw [hdelok]
    decide

/-- C8: in any state with at most one running interval per project, the
derived classification is `running` exactly when a running interval
exists for the project; `paused` exactly when none exists but the most
recent interval carries an `end_time` whose elapsed time to `now` is at
most 24 hours; and `stopped` otherwise. -/
theorem claim8_timer_classification (s : EngineState) (pid : String)
    (now : Int) (hinv : AtMostOneRunning s) :
    ((getTimerStateForProject s pid now).1 = TimerState.running ↔
      HasRunning s pid) ∧
    ((getTimerStateForProject s pid now).1 = TimerState.paused ↔
      (¬ HasRunning s pid ∧ RecentlyStopped s pid now)) ∧
    ((getTimerStateForProject s pid now).1 = TimerState.stopped ↔
      (¬ HasRunning s pid ∧ ¬ RecentlyStopped s pid now)) := by
  unfold getTimerStateForProject
  cases hg : getRunningTimerForProject s pid with
  | some t =>
    have hhr : HasRunning s pid := by
      rcases getRunning_some_spec hg with ⟨hmem, hp, hr⟩
      exact ⟨t, hmem, hp, hr⟩
    exact ⟨by simp [hhr], by simp [hhr], by simp [hhr]⟩
  | none =>
    have hnr : ¬ HasRunning s pid := (getRunning_none_iff (hinv pid)).mp hg
    unfold getPausedTimerForProject
    rw [hg]
    unfold RecentlyStopped
    cases hl : getLastEntryForProject s pid with
    | none => exact ⟨by simp [hnr], by simp [hnr], by simp [hnr]⟩
    | some le =>
      cases hend : le.end_time with
      | none =>
        simp only [hend]
        exact ⟨by simp [hnr], by simp [hnr], by simp [hnr]⟩
      | some t =>
        simp only [hend]
        by_cases h24 : now - t ≤ 86400000
        · rw [if_pos h24]
          exact ⟨by simp [hnr], by simp [hnr, h24], by simp [hnr, h24]⟩
        · rw [if_neg h24]
          exact ⟨by simp [hnr], by simp [hnr, h24], by simp [hnr, h24]⟩

theorem claim8_timer_classification_witness :
    (getTimerStateForProject ⟨[], 0⟩ "P1" 0).1 = TimerState.stopped ∧
    (getTimerStateForProject (runOps ⟨[], 0⟩
        [EngineOp.start "P1" none 0, EngineOp.stop 0 90000]) "P1" 90000).1 =
      TimerState.paused ∧
    (getTimerStateForProject (runOps ⟨[], 0⟩
        [EngineOp.start "P1" none 0, EngineOp.stop 0 90000]) "P1"
        (90000 + 86400001)).1 = TimerState.stopped := by
  have hinv0 : AtMostOneRunning (⟨[], 0⟩ : EngineState) := by
    intro pid
    simp [List.countP_nil]
  have hinv1 : AtMostOneRunning (runOps ⟨[], 0⟩
      [EngineOp.start "P1" none 0, EngineOp.stop 0 90000]) := by
    intro pid
    exact le_trans (List.countP_le_length _) (by decide)
  refine ⟨?_, ?_, ?_⟩
  · exact ((claim8_timer_classification ⟨[], 0⟩ "P1" 0 hinv0).2.2).mpr (by decide)
  · exact ((claim8_timer_classification (runOps ⟨[], 0⟩
      [EngineOp.start "P1" none 0, EngineOp.stop 0 90000]) "P1" 90000
      hinv1).2.1).mpr (by decide)
  · exact ((claim8_timer_classification (runOps ⟨[], 0⟩
      [EngineOp.start "P1" none 0, EngineOp.stop 0 90000]) "P1"
      (90000 + 86400001) hinv1).2.2).mpr (by decide)

/-- C9: in any state with at most one running interval per project,
resumeTimer fails with the conflict error exactly when a running
interval exists for the project; otherwise it starts a new running
interval whose notes are the most recent entry's (truthy) notes when
`copyNotes = true`, and absent when `copyNotes = false`. -/
theorem claim9_resume_timer (s : EngineState) (pid : String)
    (copyNotes : Bool) (now : Int) (hinv : AtMostOneRunning s) :
    (HasRunning s pid →
      resumeTimer s pid copyNotes now =
        (⟨false, none, some "Timer is already running for this project"⟩, s)) ∧
    (¬ HasRunning s pid →
      (resumeTimer s pid copyNotes now).1.success = true ∧
      (resumeTimer s pid copyNotes now).1.timeEntry =
        some { id := s.nextId, project_id := pid, start_time := now,
               end_time := none, duration_seconds := none, is_running := true,
               is_manual := false,
               notes := if copyNotes then
                   truthyNote (getLastEntryForProject s pid)
                 else none }) := by
  constructor
  · intro hex
    cases hg : getRunningTimerForProject s pid with
    | none => exact absurd hex ((getRunning_none_iff (hinv pid)).mp hg)
    | some t =>
      unfold resumeTimer
      rw [hg]
  · intro hnex
    have hg : getRunningTimerForProject s pid = none :=
      (getRunning_none_iff (hinv pid)).mpr hnex
    unfold resumeTimer
    rw [hg]
    unfold startTimer
    rw [hg]
    refine ⟨rfl, ?_⟩
    simp only [newRunningEntry]
    cases copyNotes with
    | true => simp [notesOrNull_truthyNote]
    | false => simp [notesOrNull]

theorem claim9_resume_timer_witness :
    (resumeTimer (runOps ⟨[], 0⟩
        [EngineOp.start "P1" (some "x") 0, EngineOp.stop 0 5000])
        "P1" true 6000).1.timeEntry.map TimeEntry.notes = some (some "x") ∧
    (resumeTimer (runOps ⟨[], 0⟩
        [EngineOp.start "P1" (some "x") 0, EngineOp.stop 0 5000])
        "P1" false 6000).1.timeEntry.map TimeEntry.notes = some none ∧
    (resumeTimer (runOps ⟨[], 0⟩
        [EngineOp.start "P1" (some "x") 0, EngineOp.stop 0 5000])
        "P1" true 6000).1.timeEntry.map TimeEntry.is_running = some true := by
  have hinv : AtMostOneRunning (runOps ⟨[], 0⟩
      [EngineOp.start "P1" (some "x") 0, EngineOp.stop 0 5000]) := by
    intro pid
    exact le_trans (List.countP_le_length _) (by decide)
  have h1 := (claim9_resume_timer (runOps ⟨[], 0⟩
    [EngineOp.start "P1" (some "x") 0, EngineOp.stop 0 5000])
    "P1" true 6000 hinv).2 (by decide)
  have h2 := (claim9_resume_timer (runOps ⟨[], 0⟩
    [EngineOp.start "P1" (some "x") 0, EngineOp.stop 0 5000])
    "P1" false 6000 hinv).2 (by decide)
  refine ⟨?_, ?_, ?_⟩
  · rw [h1.2]; decide
  · rw [h2.2]; decide
  · rw [h1.2]; decide

/-- C10: whenever one of the four lifecycle operations (startTimer,
stopTimer, createManualEntry, deleteTimeEntry) returns a result with
`success = false`, the stored state is exactly what it was before the
call. -/
theorem claim10_failure_atomicity (s : EngineState) (op : EngineOp)
    (hop : lifecycleOp op) (hfail : (applyOp s op).1.success = false) :
    (applyOp s op).2 = s := by
  cases op with
  | start pid notes now =>
    cases hg : getRunningTimerForProject s pid with
    | some t => simp [applyOp, startTimer, hg]
    | none => simp [applyOp, startTimer, hg] at hfail
  | stop id now =>
    cases hfind : findEntry s id with
    | none => simp [applyOp, stopTimer, hfind]
    | some cur =>
      by_cases hrun : cur.is_running
      · simp [applyOp, stopTimer, hfind, hrun] at hfail
      · simp [applyOp, stopTimer, hfind, hrun]
  | stopForProject pid now => exact False.elim hop
  | pause pid now => exact False.elim hop
  | resume pid copyNotes now => exact False.elim hop
  | manual pid startT endT notes =>
    by_cases hd : Int.fdiv (endT - startT) 1000 ≤ 0
    · simp [applyOp, createManualEntry, hd]
    · simp [applyOp, createManualEntry, hd] at hfail
  | update id ustart uend unotes => exact False.elim hop
  | delete id =>
    cases hfind : findEntry s id with
    | none => simp [applyOp, deleteTimeEntry, hfind]
    | some entry =>
      by_cases hrun : entry.is_running
      · simp [applyOp, deleteTimeEntry, hfind, hrun]
      · simp [applyOp, deleteTimeEntry, hfind, hrun] at hfail

theorem claim10_failure_atomicity_witness :
    lifecycleOp (EngineOp.stop 0 0) ∧
    (applyOp ⟨[], 0⟩ (EngineOp.stop 0 0)).1.success = false ∧
    (applyOp ⟨[], 0⟩ (EngineOp.stop 0 0)).2 = (⟨[], 0⟩ : EngineState) :=
  ⟨by trivial, by decide,
   claim10_failure_atomicity ⟨[], 0⟩ (EngineOp.stop 0 0) (by trivial) (by decide)⟩

end InDoTime
